import Mathlib

/-!
Verification of the graphene-django adapter layer's specified behaviors.

The repository's deciding implementation modules
(`graphene_django/utils/utils.py`, `graphene_django/utils/testing.py`,
`graphene_django/forms/mutation.py`) are not part of the provided sources;
only their test suites and re-exports are.  Following the spec, the missing
parts are modelled here from the spec's own words ("recursive conversion of
snake-case mapping keys to camelCase", "an errors list of field/messages
pairs with optional camel-case key conversion", "input fields mirrored from
form fields", "field-name deduplication across inherited model fields",
"a test-client helper that posts JSON bodies with query, variables and
operationName keys", "a form bound to a persisted-record schema, producing
create/update operations"), pinned at concrete points by the repository's
test suite.
-/

namespace GrapheneDjango

/-- A dictionary key of a Python mapping as exercised by the repository:
either a (possibly lazily translated) string or a non-string key such as
an integer index of a formset error structure. -/
inductive Key where
  | str : String → Key
  | num : Int → Key
deriving DecidableEq, Repr

/-- A Python value as it occurs in nested error structures: a string leaf,
a numeric leaf, a list, or a mapping from keys to values. -/
inductive Value where
  | str : String → Value
  | num : Int → Value
  | list : List Value → Value
  | dict : List (Key × Value) → Value
deriving Repr

/-- Induction principle for `Value` that hands the inductive hypothesis to
every element of a nested list and to every value of a nested mapping. -/
theorem Value.inductionOn (motive : Value → Prop)
    (hstr : ∀ s, motive (.str s))
    (hnum : ∀ n, motive (.num n))
    (hlist : ∀ xs, (∀ x ∈ xs, motive x) → motive (.list xs))
    (hdict : ∀ kvs, (∀ kv ∈ kvs, motive (Prod.snd kv)) → motive (.dict kvs)) :
    ∀ v, motive v
  | .str s => hstr s
  | .num n => hnum n
  | .list xs => hlist xs (fun x hx => Value.inductionOn motive hstr hnum hlist hdict x)
  | .dict kvs => hdict kvs (fun kv hkv => Value.inductionOn motive hstr hnum hlist hdict kv.2)
termination_by v => sizeOf v
decreasing_by
  · have := List.sizeOf_lt_of_mem hx; simp; omega
  · have := List.sizeOf_lt_of_mem hkv; cases kv with
    | mk k v => simp at this ⊢; omega

mutual
/-- Boolean equality test on values, recursing through nested lists and
mappings. -/
def beqValue : Value → Value → Bool
  | .str a, .str b => a == b
  | .num a, .num b => a == b
  | .list a, .list b => beqValueList a b
  | .dict a, .dict b => beqValueDict a b
  | _, _ => false

/-- Elementwise boolean equality on lists of values. -/
def beqValueList : List Value → List Value → Bool
  | [], [] => true
  | a :: as, b :: bs => beqValue a b && beqValueList as bs
  | _, _ => false

/-- Entrywise boolean equality on mappings. -/
def beqValueDict : List (Key × Value) → List (Key × Value) → Bool
  | [], [] => true
  | (ka, va) :: as, (kb, vb) :: bs => ka == kb && beqValue va vb && beqValueDict as bs
  | _, _ => false
end

theorem beqValue_iff : ∀ a b : Value, beqValue a b = true ↔ a = b := by
  intro a
  induction a using Value.inductionOn with
  | hstr s => intro b; cases b <;> simp [beqValue]
  | hnum n => intro b; cases b <;> simp [beqValue]
  | hlist xs ih =>
    intro b; cases b <;> simp [beqValue]
    case list ys =>
      induction xs generalizing ys with
      | nil => cases ys <;> simp [beqValueList]
      | cons x xs ihx =>
        cases ys with
        | nil => simp [beqValueList]
        | cons y ys =>
          simp [beqValueList, ih x (by simp), ihx (fun z hz => ih z (by simp [hz])) ys]
  | hdict kvs ih =>
    intro b; cases b <;> simp [beqValue]
    case dict ls =>
      induction kvs generalizing ls with
      | nil => cases ls <;> simp [beqValueDict]
      | cons kv kvs ihx =>
        cases ls with
        | nil => cases kv; simp [beqValueDict]
        | cons l ls =>
          cases kv with
          | mk k v =>
            cases l with
            | mk k2 v2 =>
              simp [beqValueDict, ih (k, v) (by simp),
                ihx (fun z hz => ih z (by simp [hz])) ls, and_assoc]

instance : DecidableEq Value := fun a b => decidable_of_iff _ (beqValue_iff a b)

/-- Modelled from the spec: capitalization of one snake-case component, as
used by the camel-casing routine (upper-case the first character). -/
def capitalizeStr (s : String) : String :=
  match s.data with
  | [] => ""
  | c :: cs => String.mk (c.toUpper :: cs)

/-- Split a character sequence on underscores into its snake-case
components. -/
def splitUnderscore : List Char → List (List Char)
  | [] => [[]]
  | c :: rest =>
    let r := splitUnderscore rest
    if c = '_' then [] :: r
    else
      match r with
      | [] => [[c]]
      | g :: gs => (c :: g) :: gs

/-- Modelled from the spec: conversion of one snake_case string to
camelCase — split on underscores, keep the first component, capitalize
the remaining components and concatenate. -/
def toCamelCase (s : String) : String :=
  match (splitUnderscore s.data).map String.mk with
  | [] => s
  | c :: cs => c ++ String.join (cs.map capitalizeStr)

example : toCamelCase "value_a" = "valueA" := by decide
example : toCamelCase "nested_field" = "nestedField" := by decide
example : toCamelCase "test_field" = "testField" := by decide
example : toCamelCase "age" = "age" := by decide

/-- Camel-casing of a single mapping key: string keys are converted,
non-string keys are left unchanged. -/
def camelizeKey : Key → Key
  | .str s => .str (toCamelCase s)
  | .num n => .num n

mutual
/-- Modelled from the spec: `camelize` — recursive conversion of
snake-case mapping keys to camelCase in a nested error structure.
Mappings have their string keys converted and their values camelized,
lists are camelized elementwise, leaves are returned unchanged. -/
def camelize : Value → Value
  | .str s => .str s
  | .num n => .num n
  | .list xs => .list (camelizeList xs)
  | .dict kvs => .dict (camelizeDict kvs)

/-- Elementwise camelization of a list value. -/
def camelizeList : List Value → List Value
  | [] => []
  | x :: xs => camelize x :: camelizeList xs

/-- Entrywise camelization of a mapping: convert each string key and
recurse into each value. -/
def camelizeDict : List (Key × Value) → List (Key × Value)
  | [] => []
  | (k, v) :: kvs => (camelizeKey k, camelize v) :: camelizeDict kvs
end

example : camelize (.dict []) = .dict [] := by decide
example : camelize (.str "value_a") = .str "value_a" := by decide
example : camelize (.dict [(.str "value_a", .str "value_b")])
    = .dict [(.str "valueA", .str "value_b")] := by decide
example : camelize (.dict [(.str "value_a", .list [.str "value_b"])])
    = .dict [(.str "valueA", .list [.str "value_b"])] := by decide
example : camelize (.dict [(.str "nested_field",
      .dict [(.str "value_a", .list [.str "error"]),
             (.str "value_b", .list [.str "error"])])])
    = .dict [(.str "nestedField",
      .dict [(.str "valueA", .list [.str "error"]),
             (.str "valueB", .list [.str "error"])])] := by decide
example : camelize (.dict [(.num 0, .dict [(.str "field_a", .list [.str "errors"])])])
    = .dict [(.num 0, .dict [(.str "fieldA", .list [.str "errors"])])] := by decide

/-- The string content of a mapping key, if any. -/
def keyStrs : Key → List String
  | .str s => [s]
  | .num _ => []

/-- The numeric content of a mapping key, if any. -/
def keyNums : Key → List Int
  | .str _ => []
  | .num n => [n]

mutual
/-- All string mapping keys occurring anywhere in a value, at every
nesting depth, in traversal order. -/
def strKeys : Value → List String
  | .str _ => []
  | .num _ => []
  | .list xs => strKeysList xs
  | .dict kvs => strKeysDict kvs

/-- String mapping keys occurring in the elements of a list value. -/
def strKeysList : List Value → List String
  | [] => []
  | x :: xs => strKeys x ++ strKeysList xs

/-- String mapping keys of a mapping together with those occurring in its
values. -/
def strKeysDict : List (Key × Value) → List String
  | [] => []
  | (k, v) :: kvs => keyStrs k ++ strKeys v ++ strKeysDict kvs
end

mutual
/-- All non-string (numeric) mapping keys occurring anywhere in a value. -/
def numKeys : Value → List Int
  | .str _ => []
  | .num _ => []
  | .list xs => numKeysList xs
  | .dict kvs => numKeysDict kvs

/-- Numeric mapping keys occurring in the elements of a list value. -/
def numKeysList : List Value → List Int
  | [] => []
  | x :: xs => numKeys x ++ numKeysList xs

/-- Numeric mapping keys of a mapping together with those occurring in its
values. -/
def numKeysDict : List (Key × Value) → List Int
  | [] => []
  | (k, v) :: kvs => keyNums k ++ numKeys v ++ numKeysDict kvs
end

mutual
/-- All string leaf values occurring anywhere in a value, at every nesting
depth, in traversal order. -/
def strLeaves : Value → List String
  | .str s => [s]
  | .num _ => []
  | .list xs => strLeavesList xs
  | .dict kvs => strLeavesDict kvs

/-- String leaf values occurring in the elements of a list value. -/
def strLeavesList : List Value → List String
  | [] => []
  | x :: xs => strLeaves x ++ strLeavesList xs

/-- String leaf values occurring in the values of a mapping. -/
def strLeavesDict : List (Key × Value) → List String
  | [] => []
  | (_, v) :: kvs => strLeaves v ++ strLeavesDict kvs
end

theorem camelizeList_eq_map (xs : List Value) : camelizeList xs = xs.map camelize := by
  induction xs with
  | nil => rfl
  | cons x xs ih => simp [camelizeList, ih]

theorem camelizeDict_eq_map (kvs : List (Key × Value)) :
    camelizeDict kvs = kvs.map (fun kv => (camelizeKey kv.1, camelize kv.2)) := by
  induction kvs with
  | nil => rfl
  | cons kv kvs ih => cases kv; simp [camelizeDict, ih]

theorem strKeys_camelize (v : Value) :
    strKeys (camelize v) = (strKeys v).map toCamelCase := by
  induction v using Value.inductionOn with
  | hstr s => simp [camelize, strKeys]
  | hnum n => simp [camelize, strKeys]
  | hlist xs ih =>
    simp only [camelize, strKeys]
    induction xs with
    | nil => simp [camelizeList, strKeysList]
    | cons x xs ihx =>
      simp [camelizeList, strKeysList, ih x (by simp),
        ihx (fun z hz => ih z (by simp [hz]))]
  | hdict kvs ih =>
    simp only [camelize, strKeys]
    induction kvs with
    | nil => simp [camelizeDict, strKeysDict]
    | cons kv kvs ihx =>
      cases kv with
      | mk k v =>
        have hv := ih (k, v) (by simp)
        cases k <;>
          simp [camelizeDict, strKeysDict, camelizeKey, keyStrs, hv,
            ihx (fun z hz => ih z (by simp [hz]))]

theorem numKeys_camelize (v : Value) : numKeys (camelize v) = numKeys v := by
  induction v using Value.inductionOn with
  | hstr s => simp [camelize, numKeys]
  | hnum n => simp [camelize, numKeys]
  | hlist xs ih =>
    simp only [camelize, numKeys]
    induction xs with
    | nil => simp [camelizeList, numKeysList]
    | cons x xs ihx =>
      simp [camelizeList, numKeysList, ih x (by simp),
        ihx (fun z hz => ih z (by simp [hz]))]
  | hdict kvs ih =>
    simp only [camelize, numKeys]
    induction kvs with
    | nil => simp [camelizeDict, numKeysDict]
    | cons kv kvs ihx =>
      cases kv with
      | mk k v =>
        have hv := ih (k, v) (by simp)
        cases k <;>
          simp [camelizeDict, numKeysDict, camelizeKey, keyNums, hv,
            ihx (fun z hz => ih z (by simp [hz]))]

theorem strLeaves_camelize (v : Value) : strLeaves (camelize v) = strLeaves v := by
  induction v using Value.inductionOn with
  | hstr s => simp [camelize, strLeaves]
  | hnum n => simp [camelize, strLeaves]
  | hlist xs ih =>
    simp only [camelize, strLeaves]
    induction xs with
    | nil => simp [camelizeList, strLeavesList]
    | cons x xs ihx =>
      simp [camelizeList, strLeavesList, ih x (by simp),
        ihx (fun z hz => ih z (by simp [hz]))]
  | hdict kvs ih =>
    simp only [camelize, strLeaves]
    induction kvs with
    | nil => simp [camelizeDict, strLeavesDict]
    | cons kv kvs ihx =>
      cases kv with
      | mk k v =>
        simp [camelizeDict, strLeavesDict,
          ih (k, v) (by simp), ihx (fun z hz => ih z (by simp [hz]))]

/-- Modelled from the spec: one field of a framework form
(`graphene_django.forms.mutation` and the host framework's form machinery
are not in the provided sources) — a field name together with the field's
cleaning routine, which takes the raw input bound to the field (if any) and
returns either the cleaned value or the list of validation message strings
for that field. -/
structure FormField (V : Type) where
  name : String
  clean : Option String → Except (List String) V

/-- Modelled from the spec: the validation errors a bound form collects —
one `(field, messages)` pair per field whose cleaning routine rejects the
raw input bound to it, in field declaration order. -/
def formErrors {V : Type} (fields : List (FormField V))
    (data : List (String × String)) : List (String × List String) :=
  fields.filterMap fun fld =>
    match fld.clean (data.lookup fld.name) with
    | .ok _ => none
    | .error msgs => some (fld.name, msgs)

/-- The cleaned data of a bound form: the successfully cleaned value of each
field. -/
def cleanedData {V : Type} (fields : List (FormField V))
    (data : List (String × String)) : List (String × V) :=
  fields.filterMap fun fld =>
    match fld.clean (data.lookup fld.name) with
    | .ok v => some (fld.name, v)
    | .error _ => none

/-- Whether a field's cleaning routine rejects the raw input bound to it. -/
def cleanFails {V : Type} (fld : FormField V) (data : List (String × String)) : Bool :=
  match fld.clean (data.lookup fld.name) with
  | .ok _ => false
  | .error _ => true

/-- Modelled from the spec: construction of the payload's `errors` list from
the form's validation errors — the field/messages pairs, with the field
names camel-cased exactly when the camel-case setting is enabled. -/
def fromErrors (camelcase : Bool) (errs : List (String × List String)) :
    List (String × List String) :=
  if camelcase then errs.map (fun e => (toCamelCase e.1, e.2)) else errs

/-- Encoding of a form's `errors` mapping (field name to message strings)
as a nested value, the shape `camelize` is applied to. -/
def errorsValue (errs : List (String × List String)) : Value :=
  .dict (errs.map fun e => (.str e.1, .list (e.2.map .str)))

theorem camelizeList_strings (ms : List String) :
    camelizeList (ms.map Value.str) = ms.map Value.str := by
  induction ms with
  | nil => rfl
  | cons m ms ih => simp [camelizeList, camelize, ih]

/-- Enabling the camel-case setting converts the error structure exactly as
the recursive `camelize` routine does. -/
theorem fromErrors_eq_camelize (errs : List (String × List String)) :
    errorsValue (fromErrors true errs) = camelize (errorsValue errs) := by
  induction errs with
  | nil => rfl
  | cons e errs ih =>
    cases e with
    | mk f ms =>
      simp only [errorsValue, fromErrors, if_pos rfl, List.map_cons] at ih ⊢
      simp [camelize, camelizeDict, camelizeKey, camelizeList_strings]
      simpa [errorsValue, fromErrors, camelize] using ih

/-- The payload returned by a form mutation: the mirrored cleaned form data
when the form validated, and the surfaced `errors` list. -/
structure FormPayload (V : Type) where
  formData : List (String × V)
  errors : List (String × List String)
deriving Repr, DecidableEq

/-- Modelled from the spec: `mutate_and_get_payload` of a form mutation —
bind the form to the input data; if the form validates, perform the
mutation and return the cleaned data with an empty `errors` list, otherwise
surface the form's validation errors as the payload's `errors` list of
field/messages pairs, camel-cased when the setting is enabled. -/
def mutateAndGetPayload {V : Type} (camelcase : Bool) (fields : List (FormField V))
    (data : List (String × String)) : FormPayload V :=
  if formErrors fields data = [] then
    { formData := cleanedData fields data, errors := [] }
  else
    { formData := [], errors := fromErrors camelcase (formErrors fields data) }

/-- A persisted-record store: primary keys paired with saved records (a
record is its saved field values). -/
abbrev DB (V : Type) := List (Nat × List (String × V))

/-- Update in place the stored record carrying the given primary key. -/
def dbUpdate {V : Type} (pk : Nat) (r : List (String × V)) (db : DB V) : DB V :=
  db.map fun e => if e.1 = pk then (pk, r) else e

/-- The outcome of a model form mutation: the store after the mutation, the
returned record field (if the form validated), and the `errors` list. -/
structure ModelFormPayload (V : Type) where
  db : DB V
  record : Option (Nat × List (String × V))
  errors : List (String × List String)
deriving Repr, DecidableEq

/-- Modelled from the spec: `mutate_and_get_payload` of a model form
mutation — "a form bound to a persisted-record schema, producing
create/update operations".  If the form validates, its cleaned data is
saved: with no record id in the input a new record is created under the
next free primary key, with an id the existing record is updated in place;
if validation fails, the store is untouched, the record field of the
payload is `none` and the validation errors are surfaced. -/
def modelFormMutate {V : Type} (camelcase : Bool) (fields : List (FormField V))
    (data : List (String × String)) (db : DB V) (nextPk : Nat)
    (inputId : Option Nat) : ModelFormPayload V :=
  if formErrors fields data = [] then
    let r := cleanedData fields data
    match inputId with
    | none => { db := db ++ [(nextPk, r)], record := some (nextPk, r), errors := [] }
    | some pk => { db := dbUpdate pk r db, record := some (pk, r), errors := [] }
  else
    { db := db, record := none,
      errors := fromErrors camelcase (formErrors fields data) }

/-- Modelled from the spec: the field names of a generated mutation Input
type — "input fields mirrored from form fields", without those listed in
`exclude_fields`, plus the relay client mutation id field contributed
unconditionally by the client-id mutation base class. -/
def inputFields (formFieldNames : List String) (excludeFields : List String) :
    List String :=
  formFieldNames.filter (fun f => decide (f ∉ excludeFields)) ++ ["client_mutation_id"]

/-- Modelled from the spec: class construction of a form mutation — the
metaclass-driven translation requires a `form_class` option and derives the
Input fields from the form's fields; the required-option failure message is
the one pinned by the repository's test suite. -/
def buildFormMutation (formClass : Option (List String))
    (excludeFields : List String) : Except String (List String) :=
  match formClass with
  | none => .error "form_class is required for DjangoFormMutation"
  | some fieldNames => .ok (inputFields fieldNames excludeFields)

/-- A framework model as seen by the field-collection utility
(`graphene_django.utils.utils.get_model_fields` is not in the provided
sources): its concrete local fields (with names, kept unique across model
ancestry by the host object-relational mapper) and the reverse-relation
attributes found in the model class's attribute dictionary. -/
structure DjangoModel (F : Type) where
  metaFields : List (String × F)
  attrs : List (String × F)

/-- Modelled from the spec: the reverse fields of a model — the
reverse-relation attributes whose name does not duplicate a local field
name. -/
def get_reverse_fields {F : Type} (m : DjangoModel F)
    (localFieldNames : List String) : List (String × F) :=
  m.attrs.filter (fun a => decide (a.1 ∉ localFieldNames))

/-- Modelled from the spec: `get_model_fields` — the model's concrete local
fields followed by its reverse fields, with "field-name deduplication
across inherited model fields". -/
def get_model_fields {F : Type} (m : DjangoModel F) : List (String × F) :=
  m.metaFields ++ get_reverse_fields m (m.metaFields.map Prod.fst)

/-- Modelled from the spec: the JSON body posted by the test-client helper
(`graphene_django.utils.testing.GraphQLTestCase.query` is not in the
provided sources) — "a test-client helper that posts JSON bodies with
`query`, `variables`, and `operationName` keys", the last set from the
helper's `op_name` argument. -/
def queryBody (query : String) (opName : String) (vars : Value) :
    List (String × Value) :=
  [("query", .str query), ("variables", vars),
   ("operationName", .str opName)]

/-- Characterization of membership in a form's collected errors. -/
theorem mem_formErrors {V : Type} (fields : List (FormField V))
    (data : List (String × String)) (f : String) (ms : List String) :
    (f, ms) ∈ formErrors fields data ↔
      ∃ fld ∈ fields, fld.name = f ∧
        fld.clean (data.lookup fld.name) = .error ms := by
  simp only [formErrors, List.mem_filterMap]
  constructor
  · rintro ⟨fld, hfld, h⟩
    refine ⟨fld, hfld, ?_⟩
    cases hc : fld.clean (data.lookup fld.name) <;> simp [hc] at h
    exact ⟨h.1, by rw [h.2]⟩
  · rintro ⟨fld, hfld, rfl, hc⟩
    exact ⟨fld, hfld, by simp [hc]⟩

/-- The collected errors have exactly one entry per field whose cleaning
routine rejects its input. -/
theorem formErrors_length {V : Type} (fields : List (FormField V))
    (data : List (String × String)) :
    (formErrors fields data).length
      = fields.countP (fun fld => cleanFails fld data) := by
  induction fields with
  | nil => rfl
  | cons fld fields ih =>
    simp only [formErrors] at ih ⊢
    cases hc : fld.clean (data.lookup fld.name) <;>
      simp [List.filterMap_cons, List.countP_cons, cleanFails, hc, ih]

theorem dbUpdate_length {V : Type} (pk : Nat) (r : List (String × V)) (db : DB V) :
    (dbUpdate pk r db).length = db.length := by
  simp [dbUpdate]

theorem dbUpdate_lookup_self {V : Type} (pk : Nat) (r : List (String × V))
    (db : DB V) (h : pk ∈ db.map Prod.fst) :
    (dbUpdate pk r db).lookup pk = some r := by
  induction db with
  | nil => simp at h
  | cons e db ih =>
    cases e with
    | mk k0 r0 =>
      simp only [List.map_cons, List.mem_cons] at h
      by_cases hk : k0 = pk
      · subst hk
        have hupd : dbUpdate k0 r ((k0, r0) :: db) = (k0, r) :: dbUpdate k0 r db := by
          simp [dbUpdate]
        rw [hupd, List.lookup_cons]
        simp
      · have h' : pk ∈ db.map Prod.fst := by
          rcases h with h | h
          · exact absurd h.symm hk
          · exact h
        have hupd : dbUpdate pk r ((k0, r0) :: db) = (k0, r0) :: dbUpdate pk r db := by
          simp [dbUpdate, hk]
        rw [hupd, List.lookup_cons]
        simp [beq_false_of_ne (Ne.symm hk)]
        exact ih h'

theorem dbUpdate_lookup_other {V : Type} (pk k : Nat) (r : List (String × V))
    (db : DB V) (hk : k ≠ pk) :
    (dbUpdate pk r db).lookup k = db.lookup k := by
  induction db with
  | nil => rfl
  | cons e db ih =>
    cases e with
    | mk k0 r0 =>
      by_cases h0 : k0 = pk
      · subst h0
        have hupd : dbUpdate k0 r ((k0, r0) :: db) = (k0, r) :: dbUpdate k0 r db := by
          simp [dbUpdate]
        rw [hupd, List.lookup_cons, List.lookup_cons]
        simp [beq_false_of_ne hk]
        exact ih
      · have hupd : dbUpdate pk r ((k0, r0) :: db) = (k0, r0) :: dbUpdate pk r db := by
          simp [dbUpdate, h0]
        rw [hupd, List.lookup_cons, List.lookup_cons]
        by_cases hkk : k = k0
        · subst hkk
          simp
        · simp [beq_false_of_ne hkk]
          exact ih

/-- The `text` field of the repository's test form `MyForm`: optional, but
rejecting the literal raw value INVALID_INPUT with the message the form's
`clean_text` raises. -/
def textField : FormField String :=
  { name := "text",
    clean := fun raw =>
      if raw = some "INVALID_INPUT" then .error ["Invalid input"]
      else .ok (raw.getD "") }

/-- The `name` field of the test model form `PetForm`: required. -/
def nameField : FormField String :=
  { name := "name",
    clean := fun raw =>
      match raw with
      | none => .error ["This field is required."]
      | some s => .ok s }

/-- The `age` field of the test model form `PetForm`: required, rejecting
the age 99 with the message the form's `clean_age` raises. -/
def ageField : FormField String :=
  { name := "age",
    clean := fun raw =>
      match raw with
      | none => .error ["This field is required."]
      | some s => if s = "99" then .error ["Too old"] else .ok s }

example : formErrors [textField] [("text", "INVALID_INPUT")]
    = [("text", ["Invalid input"])] := by decide
example : formErrors [textField] [("text", "VALID_INPUT")] = [] := by decide
example : formErrors [nameField, ageField] [("age", "99")]
    = [("name", ["This field is required."]), ("age", ["Too old"])] := by decide

/-- C1: for every form mutation executed on invalid input, the validation
errors collected from the form are surfaced in the mutation payload as a
list of pairs of a field name and that field's message strings, with one
entry per invalid field. -/
theorem formMutation_invalid_errors_surfaced {V : Type}
    (fields : List (FormField V)) (data : List (String × String))
    (hinv : formErrors fields data ≠ []) :
    (mutateAndGetPayload false fields data).errors = formErrors fields data ∧
    (∀ f ms, (f, ms) ∈ formErrors fields data ↔
      ∃ fld ∈ fields, fld.name = f ∧
        fld.clean (data.lookup fld.name) = .error ms) ∧
    (formErrors fields data).length
      = fields.countP (fun fld => cleanFails fld data) := by
  refine ⟨?_, fun f ms => mem_formErrors fields data f ms,
    formErrors_length fields data⟩
  simp [mutateAndGetPayload, hinv, fromErrors]

/-- C1 witness: the invalid-input scenario of the repository's form
mutation test, evaluated at the concrete `text` field and input. -/
theorem formMutation_invalid_errors_surfaced_witness :
    formErrors [textField] [("text", "INVALID_INPUT")] ≠ [] ∧
    ((mutateAndGetPayload false [textField] [("text", "INVALID_INPUT")]).errors
        = formErrors [textField] [("text", "INVALID_INPUT")] ∧
     (∀ f ms, (f, ms) ∈ formErrors [textField] [("text", "INVALID_INPUT")] ↔
       ∃ fld ∈ [textField], fld.name = f ∧
         fld.clean ([("text", "INVALID_INPUT")].lookup fld.name) = .error ms) ∧
     (formErrors [textField] [("text", "INVALID_INPUT")]).length
       = [textField].countP
           (fun fld => cleanFails fld [("text", "INVALID_INPUT")])) :=
  ⟨by decide, formMutation_invalid_errors_surfaced [textField]
    [("text", "INVALID_INPUT")] (by decide)⟩

/-- C2: counterexample — `camelize` does not return every non-mapping input
unchanged: a list containing a mapping with a snake_case string key has
that nested key converted, so this list input is changed. -/
theorem camelize_nonmapping_counterexample :
    ¬ (camelize (.list [.dict [(.str "value_a", .list [.str "error"])]])
        = .list [.dict [(.str "value_a", .list [.str "error"])]]) := by decide

/-- C2 (amended): for every mapping, `camelize` returns a mapping in which
every snake_case string key, at every nesting depth (including keys of
mappings nested inside values and inside lists), is converted to
camelCase, while non-string keys and leaf values are unchanged; a string
or numeric non-mapping input is returned unchanged, and a list input is
returned with `camelize` applied to each of its elements (not
unchanged). -/
theorem camelize_recursive_keycasing :
    (∀ kvs, camelize (.dict kvs)
        = .dict (kvs.map fun kv => (camelizeKey kv.1, camelize kv.2))) ∧
    (∀ v, strKeys (camelize v) = (strKeys v).map toCamelCase) ∧
    (∀ v, numKeys (camelize v) = numKeys v) ∧
    (∀ v, strLeaves (camelize v) = strLeaves v) ∧
    (∀ s, camelize (.str s) = .str s) ∧
    (∀ n, camelize (.num n) = .num n) ∧
    (∀ xs, camelize (.list xs) = .list (xs.map camelize)) :=
  ⟨fun kvs => by simp [camelize, camelizeDict_eq_map],
   strKeys_camelize, numKeys_camelize, strLeaves_camelize,
   fun s => rfl, fun n => rfl,
   fun xs => by simp [camelize, camelizeList_eq_map]⟩

/-- C3: camel-case conversion of error field names is optional — with the
setting enabled the surfaced field names are camelCased (the conversion
agreeing with the recursive `camelize` routine on the error structure),
with it disabled the original snake_case field names are returned
unchanged. -/
theorem formMutation_errors_camelcase_optional {V : Type}
    (fields : List (FormField V)) (data : List (String × String)) :
    (mutateAndGetPayload true fields data).errors
        = (formErrors fields data).map (fun e => (toCamelCase e.1, e.2)) ∧
    (mutateAndGetPayload false fields data).errors = formErrors fields data ∧
    errorsValue ((mutateAndGetPayload true fields data).errors)
        = camelize (errorsValue ((mutateAndGetPayload false fields data).errors)) := by
  refine ⟨?_, ?_, ?_⟩
  · by_cases h : formErrors fields data = [] <;>
      simp [mutateAndGetPayload, h, fromErrors]
  · by_cases h : formErrors fields data = [] <;>
      simp [mutateAndGetPayload, h, fromErrors]
  · by_cases h : formErrors fields data = []
    · simp [mutateAndGetPayload, h, errorsValue, camelize, camelizeDict]
    · have h1 : (mutateAndGetPayload true fields data).errors
          = fromErrors true (formErrors fields data) := by
        simp [mutateAndGetPayload, h]
      have h2 : (mutateAndGetPayload false fields data).errors
          = formErrors fields data := by
        simp [mutateAndGetPayload, h, fromErrors]
      rw [h1, h2, fromErrors_eq_camelize]

/-- C4: a model form mutation produces both create and update operations —
with no record id in the input the cleaned input is saved as a new record;
with the id of an existing record that record is updated in place, every
other record is untouched and no additional record is created. -/
theorem modelFormMutation_create_update {V : Type} (camelcase : Bool)
    (fields : List (FormField V)) (data : List (String × String))
    (db : DB V) (nextPk : Nat) (pk : Nat)
    (hvalid : formErrors fields data = []) (hpk : pk ∈ db.map Prod.fst) :
    ((modelFormMutate camelcase fields data db nextPk none).db
        = db ++ [(nextPk, cleanedData fields data)] ∧
     (modelFormMutate camelcase fields data db nextPk none).db.length
        = db.length + 1 ∧
     (modelFormMutate camelcase fields data db nextPk none).record
        = some (nextPk, cleanedData fields data)) ∧
    ((modelFormMutate camelcase fields data db nextPk (some pk)).db.length
        = db.length ∧
     ((modelFormMutate camelcase fields data db nextPk (some pk)).db).lookup pk
        = some (cleanedData fields data) ∧
     (∀ k, k ≠ pk →
       ((modelFormMutate camelcase fields data db nextPk (some pk)).db).lookup k
         = db.lookup k) ∧
     (modelFormMutate camelcase fields data db nextPk (some pk)).record
        = some (pk, cleanedData fields data)) := by
  have hn : modelFormMutate camelcase fields data db nextPk none
      = { db := db ++ [(nextPk, cleanedData fields data)],
          record := some (nextPk, cleanedData fields data), errors := [] } := by
    simp [modelFormMutate, hvalid]
  have hs : modelFormMutate camelcase fields data db nextPk (some pk)
      = { db := dbUpdate pk (cleanedData fields data) db,
          record := some (pk, cleanedData fields data), errors := [] } := by
    simp [modelFormMutate, hvalid]
  rw [hn, hs]
  exact ⟨⟨rfl, by simp, rfl⟩,
    dbUpdate_length pk _ db, dbUpdate_lookup_self pk _ db hpk,
    fun k hk => dbUpdate_lookup_other pk k _ db hk, rfl⟩

/-- C4 witness: the create and update scenarios of the repository's model
form mutation tests, evaluated at the concrete `PetForm` fields, an input
naming Mia aged 10, and a store holding one record with primary key 1. -/
theorem modelFormMutation_create_update_witness :
    formErrors [nameField, ageField] [("name", "Mia"), ("age", "10")] = [] ∧
    1 ∈ ([(1, [("name", "Axel"), ("age", "10")])] : DB String).map Prod.fst ∧
    (((modelFormMutate false [nameField, ageField]
          [("name", "Mia"), ("age", "10")]
          [(1, [("name", "Axel"), ("age", "10")])] 2 none).db
        = [(1, [("name", "Axel"), ("age", "10")])]
          ++ [(2, cleanedData [nameField, ageField]
                [("name", "Mia"), ("age", "10")])] ∧
      (modelFormMutate false [nameField, ageField]
          [("name", "Mia"), ("age", "10")]
          [(1, [("name", "Axel"), ("age", "10")])] 2 none).db.length
        = ([(1, [("name", "Axel"), ("age", "10")])] : DB String).length + 1 ∧
      (modelFormMutate false [nameField, ageField]
          [("name", "Mia"), ("age", "10")]
          [(1, [("name", "Axel"), ("age", "10")])] 2 none).record
        = some (2, cleanedData [nameField, ageField]
            [("name", "Mia"), ("age", "10")])) ∧
     ((modelFormMutate false [nameField, ageField]
          [("name", "Mia"), ("age", "10")]
          [(1, [("name", "Axel"), ("age", "10")])] 2 (some 1)).db.length
        = ([(1, [("name", "Axel"), ("age", "10")])] : DB String).length ∧
      ((modelFormMutate false [nameField, ageField]
          [("name", "Mia"), ("age", "10")]
          [(1, [("name", "Axel"), ("age", "10")])] 2 (some 1)).db).lookup 1
        = some (cleanedData [nameField, ageField]
            [("name", "Mia"), ("age", "10")]) ∧
      (∀ k, k ≠ 1 →
        ((modelFormMutate false [nameField, ageField]
            [("name", "Mia"), ("age", "10")]
            [(1, [("name", "Axel"), ("age", "10")])] 2 (some 1)).db).lookup k
          = ([(1, [("name", "Axel"), ("age", "10")])] : DB String).lookup k) ∧
      (modelFormMutate false [nameField, ageField]
          [("name", "Mia"), ("age", "10")]
          [(1, [("name", "Axel"), ("age", "10")])] 2 (some 1)).record
        = some (1, cleanedData [nameField, ageField]
            [("name", "Mia"), ("age", "10")]))) :=
  ⟨by decide, by decide,
   modelFormMutation_create_update false [nameField, ageField]
     [("name", "Mia"), ("age", "10")] [(1, [("name", "Axel"), ("age", "10")])]
     2 1 (by decide) (by decide)⟩

/-- C5: the field list produced by `get_model_fields` contains no two
entries with the same field name — the local field names are unique, the
reverse fields carry unique names and are filtered against the local
names. -/
theorem get_model_fields_nodup {F : Type} (m : DjangoModel F)
    (h1 : (m.metaFields.map Prod.fst).Nodup)
    (h2 : (m.attrs.map Prod.fst).Nodup) :
    ((get_model_fields m).map Prod.fst).Nodup := by
  simp only [get_model_fields, List.map_append]
  refine List.Nodup.append h1 ?_ ?_
  · exact List.Nodup.sublist
      (List.Sublist.map Prod.fst (List.filter_sublist m.attrs)) h2
  · intro x hx1 hx2
    simp only [get_reverse_fields, List.mem_map, List.mem_filter,
      decide_eq_true_eq] at hx2
    rcases hx2 with ⟨a, ⟨_, hcond⟩, rfl⟩
    simp only [List.mem_map] at hx1
    exact hcond hx1

/-- C5 witness: a model with an inherited-looking attribute dictionary
whose `id` entry already occurs among the local fields. -/
theorem get_model_fields_nodup_witness :
    ((⟨[("id", ()), ("first_name", ())],
       [("films", ()), ("id", ())]⟩ : DjangoModel Unit).metaFields.map
         Prod.fst).Nodup ∧
    ((⟨[("id", ()), ("first_name", ())],
       [("films", ()), ("id", ())]⟩ : DjangoModel Unit).attrs.map
         Prod.fst).Nodup ∧
    ((get_model_fields (⟨[("id", ()), ("first_name", ())],
       [("films", ()), ("id", ())]⟩ : DjangoModel Unit)).map Prod.fst).Nodup :=
  ⟨by decide, by decide,
   get_model_fields_nodup (⟨[("id", ()), ("first_name", ())],
     [("films", ()), ("id", ())]⟩ : DjangoModel Unit) (by decide) (by decide)⟩

/-- C6: the generated Input type carries one input field for every field
declared on the form, unless the field is listed in exclude_fields; the
relay client mutation id field is contributed in addition. -/
theorem inputFields_mirror_form_fields
    (formFieldNames excludeFields : List String) (f : String) :
    f ∈ inputFields formFieldNames excludeFields ↔
      (f ∈ formFieldNames ∧ f ∉ excludeFields) ∨ f = "client_mutation_id" := by
  simp [inputFields, List.mem_filter, decide_eq_true_eq]

example : inputFields ["text"] [] = ["text", "client_mutation_id"] := by decide
example : inputFields ["text"] ["text"] = ["client_mutation_id"] := by decide
example : inputFields ["name", "age", "id"] ["id"]
    = ["name", "age", "client_mutation_id"] := by decide

/-- C7: the body the test-client helper posts is a JSON object carrying the
query key, the variables key, and the operationName key, the last set from
the helper's op_name argument. -/
theorem queryBody_keys (q opName : String) (vars : Value) :
    (queryBody q opName vars).lookup "query" = some (.str q) ∧
    (queryBody q opName vars).lookup "variables" = some vars ∧
    (queryBody q opName vars).lookup "operationName" = some (.str opName) := by
  refine ⟨rfl, ?_, ?_⟩ <;> rfl

/-- C8: a model form mutation on input that fails validation leaves the
record store unchanged, returns no record, and surfaces a non-empty errors
list. -/
theorem modelFormMutation_invalid_no_change {V : Type} (camelcase : Bool)
    (fields : List (FormField V)) (data : List (String × String))
    (db : DB V) (nextPk : Nat) (inputId : Option Nat)
    (hinv : formErrors fields data ≠ []) :
    (modelFormMutate camelcase fields data db nextPk inputId).db = db ∧
    (modelFormMutate camelcase fields data db nextPk inputId).record = none ∧
    (modelFormMutate camelcase fields data db nextPk inputId).errors ≠ [] := by
  have h : modelFormMutate camelcase fields data db nextPk inputId
      = { db := db, record := none,
          errors := fromErrors camelcase (formErrors fields data) } := by
    simp [modelFormMutate, hinv]
  rw [h]
  refine ⟨rfl, rfl, ?_⟩
  cases camelcase <;> simp [fromErrors, hinv]

/-- C8 witness: the invalid-input scenario of the repository's model form
mutation test — Mia aged 99 is rejected by `clean_age` and the store stays
empty. -/
theorem modelFormMutation_invalid_no_change_witness :
    formErrors [nameField, ageField] [("name", "Mia"), ("age", "99")] ≠ [] ∧
    ((modelFormMutate false [nameField, ageField]
        [("name", "Mia"), ("age", "99")] ([] : DB String) 1 none).db = [] ∧
     (modelFormMutate false [nameField, ageField]
        [("name", "Mia"), ("age", "99")] ([] : DB String) 1 none).record = none ∧
     (modelFormMutate false [nameField, ageField]
        [("name", "Mia"), ("age", "99")] ([] : DB String) 1 none).errors ≠ []) :=
  ⟨by decide, modelFormMutation_invalid_no_change false [nameField, ageField]
    [("name", "Mia"), ("age", "99")] ([] : DB String) 1 none (by decide)⟩

/-- C9: constructing a form mutation class without a form_class option
fails with exactly the message "form_class is required for
DjangoFormMutation". -/
theorem formMutation_requires_form_class (excludeFields : List String) :
    buildFormMutation none excludeFields
      = .error "form_class is required for DjangoFormMutation" := rfl

/-- C10: the generated mutation Input type always contains the client
mutation id field, whatever the form's fields and the exclude_fields
list — excluding form fields never removes it. -/
theorem inputFields_contain_client_mutation_id
    (formFieldNames excludeFields : List String) :
    "client_mutation_id" ∈ inputFields formFieldNames excludeFields := by
  simp [inputFields]

end GrapheneDjango
